import Mathlib

/-!
Verification of src/document-portal/xdp-util.c.

Strings are modelled as lists of characters (`Str`), matching C strings.
Machine integers are modelled as `Nat` with explicit reductions modulo
powers of two where the C code truncates. The identity-resolution cache is
single-threaded in the source (one dispatcher), so its operations are
modelled as functions from the table state to a new state plus a list of
observable events (outbound credential queries and waiter completions).
-/

abbrev Str := List Char

/-! ## Permission codec

The flag constants come from the portal header, which is not part of this
fragment. Modelled from the spec: the vocabulary is four distinct bits
(read, write, grant-permissions, delete) and the full set is their union. -/

def XDP_PERMISSION_FLAGS_READ : Nat := 1

def XDP_PERMISSION_FLAGS_WRITE : Nat := 2

def XDP_PERMISSION_FLAGS_GRANT_PERMISSIONS : Nat := 4

def XDP_PERMISSION_FLAGS_DELETE : Nat := 8

def XDP_PERMISSION_FLAGS_ALL : Nat := 15

/-- `xdg_unparse_permissions`: one token per set bit, in the fixed source
order read, write, grant-permissions, delete. -/
def xdg_unparse_permissions (permissions : Nat) : List String :=
  (if permissions &&& XDP_PERMISSION_FLAGS_READ ≠ 0 then ["read"] else []) ++
  (if permissions &&& XDP_PERMISSION_FLAGS_WRITE ≠ 0 then ["write"] else []) ++
  (if permissions &&& XDP_PERMISSION_FLAGS_GRANT_PERMISSIONS ≠ 0 then ["grant-permissions"] else []) ++
  (if permissions &&& XDP_PERMISSION_FLAGS_DELETE ≠ 0 then ["delete"] else [])

/-- `xdp_parse_permissions`: fold over the token list, or-ing in the bit of
each recognized token; an unrecognized token only logs a warning and
contributes nothing. -/
def xdp_parse_permissions (permissions : List String) : Nat :=
  permissions.foldl
    (fun perms p =>
      if p = "read" then perms ||| XDP_PERMISSION_FLAGS_READ
      else if p = "write" then perms ||| XDP_PERMISSION_FLAGS_WRITE
      else if p = "grant-permissions" then perms ||| XDP_PERMISSION_FLAGS_GRANT_PERMISSIONS
      else if p = "delete" then perms ||| XDP_PERMISSION_FLAGS_DELETE
      else perms)
    0

/-! ## Permission query

`xdg_app_db_entry_list_permissions` is an external collaborator; a grant
record is modelled by the token list it returns for each requester id. -/

structure XdgAppDbEntry where
  list_permissions : String → List String

/-- `xdp_get_permissions`: the empty requester id is the owner sentinel and
gets the full set without consulting the record; otherwise the stored token
list is decoded. -/
def xdp_get_permissions (entry : XdgAppDbEntry) (app_id : String) : Nat :=
  if app_id = "" then XDP_PERMISSION_FLAGS_ALL
  else xdp_parse_permissions (entry.list_permissions app_id)

/-- `xdp_has_permissions`: subset test on the effective permissions. -/
def xdp_has_permissions (entry : XdgAppDbEntry) (app_id : String) (perms : Nat) : Bool :=
  (xdp_get_permissions entry app_id &&& perms) == perms

/-! ## Document id names

`xdp_name_from_id` prints a `guint32` with `g_strdup_printf ("%x", id)`:
lower-case hexadecimal, no leading zeros, `0` printed as "0".
`xdp_id_from_name` calls `g_ascii_strtoull (name, NULL, 16)` (an external
library routine, modelled here on hex-digit strings: accumulate digits from
the left, stop at the first non-digit, saturate at 2^64 - 1 on overflow)
and truncates the 64-bit result to `guint32`. -/

def hexDigitChar (n : Nat) : Char :=
  if n < 10 then Char.ofNat (48 + n) else Char.ofNat (87 + n)

def toHexChars (n : Nat) : Str :=
  if n < 16 then [hexDigitChar n]
  else toHexChars (n / 16) ++ [hexDigitChar (n % 16)]
decreasing_by exact Nat.div_lt_self (by omega) (by omega)

def hexCharVal (c : Char) : Option Nat :=
  if '0' ≤ c ∧ c ≤ '9' then some (c.toNat - 48)
  else if 'a' ≤ c ∧ c ≤ 'f' then some (c.toNat - 87)
  else if 'A' ≤ c ∧ c ≤ 'F' then some (c.toNat - 55)
  else none

def strtoullHexAux (acc : Nat) : Str → Nat
  | [] => acc
  | c :: cs =>
    match hexCharVal c with
    | some v => strtoullHexAux (acc * 16 + v) cs
    | none => acc

def g_ascii_strtoull_hex (s : Str) : Nat :=
  min (strtoullHexAux 0 s) (2 ^ 64 - 1)

/-- `xdp_id_from_name`: parse as base 16, truncate to 32 bits. -/
def xdp_id_from_name (name : Str) : Nat :=
  g_ascii_strtoull_hex name % 2 ^ 32

/-- `xdp_name_from_id`: print the 32-bit id in lower-case hexadecimal. -/
def xdp_name_from_id (doc_id : Nat) : Str :=
  toHexChars (doc_id % 2 ^ 32)

/-! ## Identity resolution cache

An unresolved or failed identity is `none`; `some []` is the host
identity; `some appid` a sandboxed one. -/

inductive CacheEvent where
  | queryDispatched (sender : Str)
  | completed (task : Nat) (result : Option Str)
deriving DecidableEq

structure AppIdInfo where
  name : Str
  app_id : Option Str
  exited : Bool
  pending : List Nat
deriving DecidableEq

def AppIdTable := Str → Option AppIdInfo

def emptyTable : AppIdTable := fun _ => none

def tableInsert (t : AppIdTable) (k : Str) (v : AppIdInfo) : AppIdTable :=
  fun x => if x = k then some v else t x

def tableRemove (t : AppIdTable) (k : Str) : AppIdTable :=
  fun x => if x = k then none else t x

def systemdLinePre : Str := "1:name=systemd:".toList

def xdgAppPre : Str := "xdg-app-".toList

def scopeSuf : Str := ".scope".toList

/-- `g_path_get_basename` (glib, Unix separators): "." for the empty
string, "/" for an all-slash string, otherwise the last path component
after stripping trailing slashes. -/
def g_path_get_basename (file_name : Str) : Str :=
  if file_name = [] then ['.']
  else
    let stripped := (file_name.reverse.dropWhile (fun c => c = '/')).reverse
    if stripped = [] then ['/']
    else (stripped.reverse.takeWhile (fun c => c != '/')).reverse

/-- `g_strsplit (content, "\n", -1)`: empty tokens are kept; the empty
string yields no tokens. -/
def g_strsplit_nl (s : Str) : List Str :=
  if s = [] then []
  else
    s.foldr
      (fun c acc =>
        match acc with
        | [] => [[c]]
        | a :: as => if c = '\n' then [] :: a :: as else (c :: a) :: as)
      [[]]

/-- The body of the line loop of `got_credentials_cb` (xdp-util.c lines
178-199): a `1:name=systemd:` line whose unit basename is an
`xdg-app-<token>.scope` scope sets the app id to the part of `<token>`
before its first dash (no dash: leave the app id as it was); any other
systemd-named line sets the host app id ""; other lines change nothing. -/
def processLine (app_id : Option Str) (line : Str) : Option Str :=
  if systemdLinePre.isPrefixOf line then
    let scope := g_path_get_basename (line.drop systemdLinePre.length)
    if xdgAppPre.isPrefixOf scope && scopeSuf.isSuffixOf scope then
      let rest := scope.drop xdgAppPre.length
      if '-' ∈ rest then some (rest.takeWhile (fun c => c != '-')) else app_id
    else some []
  else app_id

/-- The full line scan of `got_credentials_cb` over the cgroup file. -/
def scanLines (app_id : Option Str) (lines : List Str) : Option Str :=
  lines.foldl processLine app_id

/-- The identity derivation of `got_credentials_cb` (lines 162-202): no
reply or an exited peer skips derivation; otherwise the reply's pid selects
a cgroup file (`proc` models the filesystem; `none` = unreadable) whose
lines are scanned. -/
def newAppId (proc : Nat → Option Str) (info : AppIdInfo) (reply : Option Nat) : Option Str :=
  match reply, info.exited with
  | some pid, false =>
    match proc pid with
    | some content => scanLines info.app_id (g_strsplit_nl content)
    | none => info.app_id
  | _, _ => info.app_id

/-- `got_credentials_cb` (lines 149-220): derive the identity, complete
every pending waiter head-first with the same outcome (`none` = the
"Can't find app id" error), clear the pending list, and drop the entry
when the identity is still unresolved. -/
def got_credentials_cb (proc : Nat → Option Str) (st : AppIdTable) (sender : Str)
    (reply : Option Nat) : AppIdTable × List CacheEvent :=
  match st sender with
  | none => (st, [])
  | some info =>
    let app_id := newAppId proc info reply
    let evs := info.pending.map fun t => CacheEvent.completed t app_id
    let st' :=
      if app_id = none then tableRemove st sender
      else tableInsert st sender { info with app_id := app_id, pending := [] }
    (st', evs)

/-- `xdp_invocation_lookup_app_id` (lines 222-269): look up or create the
sender's entry; a resolved entry answers immediately; otherwise dispatch
the single credential query when no waiter is pending yet, and prepend the
new task to the pending list. -/
def xdp_invocation_lookup_app_id (st : AppIdTable) (sender : Str) (task : Nat) :
    AppIdTable × List CacheEvent :=
  let info :=
    match st sender with
    | some i => i
    | none => { name := sender, app_id := none, exited := false, pending := [] }
  match info.app_id with
  | some a => (tableInsert st sender info, [CacheEvent.completed task (some a)])
  | none =>
    let evs := if info.pending = [] then [CacheEvent.queryDispatched sender] else []
    (tableInsert st sender { info with pending := task :: info.pending }, evs)

/-- `name_owner_changed` (lines 279-306): on a unique name losing its
owner with no successor, mark the entry exited and drop it when nothing is
pending; unknown names are ignored. -/
def name_owner_changed (st : AppIdTable) (name oldOwner newOwner : Str) : AppIdTable :=
  if name.head? = some ':' ∧ name = oldOwner ∧ newOwner = [] then
    match st name with
    | some info =>
      if info.pending = [] then tableRemove st name
      else tableInsert st name { info with exited := true }
    | none => st
  else st

/-! ## Concrete scenarios used by witnesses -/

def wName : Str := ":1.42".toList

def wInfo1 : AppIdInfo := { name := wName, app_id := none, exited := false, pending := [1] }

def wTable1 : AppIdTable := (xdp_invocation_lookup_app_id emptyTable wName 1).1

def wTable2 : AppIdTable := (xdp_invocation_lookup_app_id wTable1 wName 2).1

def wTableEx : AppIdTable := name_owner_changed wTable1 wName wName []

def wInfoEx : AppIdInfo := { name := wName, app_id := none, exited := true, pending := [1] }

def wProc : Nat → Option Str := fun p =>
  if p = 7 then some "1:name=systemd:/user.slice/xdg-app-myapp-12345.scope\n".toList else none

def wTableRes : AppIdTable := (got_credentials_cb wProc wTable1 wName (some 7)).1

def wInfoRes : AppIdInfo :=
  { name := wName, app_id := some "myapp".toList, exited := false, pending := [] }

/-! ## Helper lemmas -/

theorem hexCharVal_hexDigitChar : ∀ n, n < 16 → hexCharVal (hexDigitChar n) = some n := by
  decide

theorem toHexChars_allHex : ∀ n, ∀ c ∈ toHexChars n, (hexCharVal c).isSome := by
  intro n
  induction n using Nat.strong_induction_on with
  | _ n ih =>
    rw [toHexChars]
    split
    · intro c hc
      simp only [List.mem_singleton] at hc
      subst hc
      rw [hexCharVal_hexDigitChar _ (by omega)]
      rfl
    · intro c hc
      rcases List.mem_append.mp hc with h | h
      · exact ih (n / 16) (Nat.div_lt_self (by omega) (by omega)) c h
      · simp only [List.mem_singleton] at h
        subst h
        rw [hexCharVal_hexDigitChar _ (Nat.mod_lt _ (by omega))]
        rfl

theorem strtoullHexAux_append (l₁ l₂ : Str) (acc : Nat)
    (h : ∀ c ∈ l₁, (hexCharVal c).isSome) :
    strtoullHexAux acc (l₁ ++ l₂) = strtoullHexAux (strtoullHexAux acc l₁) l₂ := by
  induction l₁ generalizing acc with
  | nil => rfl
  | cons c cs ih =>
    have hc := h c (List.mem_cons_self c cs)
    obtain ⟨v, hv⟩ := Option.isSome_iff_exists.mp hc
    simp only [List.cons_append, strtoullHexAux, hv]
    exact ih _ (fun d hd => h d (List.mem_cons_of_mem c hd))

theorem strtoullHexAux_toHexChars :
    ∀ n acc, strtoullHexAux acc (toHexChars n) = acc * 16 ^ (toHexChars n).length + n := by
  intro n
  induction n using Nat.strong_induction_on with
  | _ n ih =>
    intro acc
    rw [toHexChars]
    split
    · simp only [strtoullHexAux, hexCharVal_hexDigitChar n (by omega), List.length_singleton]
      ring
    · rw [strtoullHexAux_append _ _ _ (toHexChars_allHex (n / 16))]
      rw [ih (n / 16) (Nat.div_lt_self (by omega) (by omega))]
      simp only [strtoullHexAux, hexCharVal_hexDigitChar (n % 16) (Nat.mod_lt _ (by omega)),
        List.length_append, List.length_singleton]
      rw [pow_succ]
      have := Nat.div_add_mod n 16
      ring_nf
      omega

theorem isPrefixOf_append_self (l r : Str) : l.isPrefixOf (l ++ r) = true := by
  induction l with
  | nil => simp [List.isPrefixOf]
  | cons c cs ih => simp [List.isPrefixOf, ih]

theorem takeWhile_append_stop {p : Char → Bool} {l₁ : Str} (l₂ : Str) {x : Char}
    (hx : x ∈ l₁) (hpx : p x = false) :
    (l₁ ++ l₂).takeWhile p = l₁.takeWhile p := by
  induction l₁ with
  | nil => cases hx
  | cons a l ih =>
    by_cases hpa : p a = true
    · have hxl : x ∈ l := by
        rcases List.mem_cons.mp hx with h | h
        · subst h; rw [hpa] at hpx; cases hpx
        · exact h
      simp [List.takeWhile_cons, hpa, ih hxl]
    · simp only [Bool.not_eq_true] at hpa
      simp [List.takeWhile_cons, hpa]

theorem processLine_elim (a : Option Str) (line : Str) :
    processLine a line = (processLine none line).elim a some := by
  simp only [processLine]
  split
  · split
    · split
      · rfl
      · rfl
    · rfl
  · rfl

theorem findSome_append (f : Str → Option Str) (l₁ l₂ : List Str) :
    (l₁ ++ l₂).findSome? f = (l₁.findSome? f).elim (l₂.findSome? f) some := by
  induction l₁ with
  | nil => rfl
  | cons a l ih =>
    simp only [List.cons_append, List.findSome?]
    cases f a
    · simpa using ih
    · rfl

/-! ## Claims -/

/-- C1: while a credential query for a connection name is outstanding
(unresolved entry with a non-empty pending list), a further `resolve` call
dispatches no second query and only prepends its task to the same entry's
pending list; when the one query finishes, every enqueued caller is
completed with one and the same outcome. -/
theorem xdp_c1 (st : AppIdTable) (sender : Str) (info : AppIdInfo) (t : Nat)
    (hst : st sender = some info) (hApp : info.app_id = none) (hPend : info.pending ≠ []) :
    (xdp_invocation_lookup_app_id st sender t).2 = [] ∧
    (xdp_invocation_lookup_app_id st sender t).1 sender =
      some { info with pending := t :: info.pending } ∧
    ∀ (proc : Nat → Option Str) (reply : Option Nat), ∃ r : Option Str,
      (got_credentials_cb proc (xdp_invocation_lookup_app_id st sender t).1 sender reply).2 =
        (t :: info.pending).map fun u => CacheEvent.completed u r := by
  refine ⟨?_, ?_, ?_⟩
  · simp [xdp_invocation_lookup_app_id, hst, hApp, hPend]
  · simp [xdp_invocation_lookup_app_id, hst, hApp, tableInsert]
  · intro proc reply
    refine ⟨newAppId proc { info with pending := t :: info.pending } reply, ?_⟩
    simp [xdp_invocation_lookup_app_id, hst, hApp, got_credentials_cb, tableInsert]

/-- C1 witness: a second lookup on an entry with one waiter dispatches
nothing, enqueues, and both waiters get the same outcome. -/
theorem xdp_c1_witness :
    (xdp_invocation_lookup_app_id wTable1 wName 2).2 = [] ∧
    (xdp_invocation_lookup_app_id wTable1 wName 2).1 wName =
      some { wInfo1 with pending := 2 :: wInfo1.pending } ∧
    ∃ r : Option Str,
      (got_credentials_cb (fun _ => none)
          (xdp_invocation_lookup_app_id wTable1 wName 2).1 wName (some 7)).2 =
        (2 :: wInfo1.pending).map fun u => CacheEvent.completed u r := by
  obtain ⟨h1, h2, h3⟩ := xdp_c1 wTable1 wName wInfo1 2 (by decide) (by decide) (by decide)
  exact ⟨h1, h2, h3 (fun _ => none) (some 7)⟩

/-- C2: when the entry is already marked exited, or the credential reply
failed or timed out, the completion handler derives no identity, completes
every pending waiter with the failure outcome, and removes the entry. -/
theorem xdp_c2 (proc : Nat → Option Str) (st : AppIdTable) (sender : Str)
    (info : AppIdInfo) (reply : Option Nat)
    (hst : st sender = some info) (hApp : info.app_id = none)
    (hFail : info.exited = true ∨ reply = none) :
    newAppId proc info reply = none ∧
    (got_credentials_cb proc st sender reply).2 =
      info.pending.map (fun t => CacheEvent.completed t none) ∧
    (got_credentials_cb proc st sender reply).1 sender = none := by
  have hnew : newAppId proc info reply = none := by
    rcases hFail with h | h
    · cases reply <;> simp [newAppId, h, hApp]
    · simp [newAppId, h, hApp]
  refine ⟨hnew, ?_, ?_⟩
  · simp [got_credentials_cb, hst, hnew]
  · simp [got_credentials_cb, hst, hnew, tableRemove]

/-- C2 witness: an exited entry with one waiter fails that waiter and is
removed even though the reply succeeded. -/
theorem xdp_c2_witness :
    newAppId (fun _ => none) wInfoEx (some 7) = none ∧
    (got_credentials_cb (fun _ => none) wTableEx wName (some 7)).2 =
      wInfoEx.pending.map (fun t => CacheEvent.completed t none) ∧
    (got_credentials_cb (fun _ => none) wTableEx wName (some 7)).1 wName = none :=
  xdp_c2 (fun _ => none) wTableEx wName wInfoEx (some 7) (by decide) (by decide)
    (Or.inl (by decide))

/-- C3: a failed resolution is not cached: when the completion handler
ends with the identity still unresolved the entry is removed, and a
subsequent `resolve` call creates a fresh entry and dispatches its own
outbound query. -/
theorem xdp_c3 (proc : Nat → Option Str) (st : AppIdTable) (sender : Str)
    (info : AppIdInfo) (reply : Option Nat) (t : Nat)
    (hst : st sender = some info)
    (hNone : newAppId proc info reply = none) :
    (got_credentials_cb proc st sender reply).1 sender = none ∧
    (xdp_invocation_lookup_app_id (got_credentials_cb proc st sender reply).1 sender t).2 =
      [CacheEvent.queryDispatched sender] ∧
    (xdp_invocation_lookup_app_id (got_credentials_cb proc st sender reply).1 sender t).1 sender =
      some { name := sender, app_id := none, exited := false, pending := [t] } := by
  have hrm : (got_credentials_cb proc st sender reply).1 sender = none := by
    simp [got_credentials_cb, hst, hNone, tableRemove]
  refine ⟨hrm, ?_, ?_⟩
  · simp [xdp_invocation_lookup_app_id, hrm]
  · simp [xdp_invocation_lookup_app_id, hrm, tableInsert]

/-- C3 witness: after a failed attempt (unreadable cgroup file) the entry
is gone and a new lookup dispatches a fresh query. -/
theorem xdp_c3_witness :
    (got_credentials_cb (fun _ => none) wTable1 wName (some 7)).1 wName = none ∧
    (xdp_invocation_lookup_app_id
        (got_credentials_cb (fun _ => none) wTable1 wName (some 7)).1 wName 3).2 =
      [CacheEvent.queryDispatched wName] ∧
    (xdp_invocation_lookup_app_id
        (got_credentials_cb (fun _ => none) wTable1 wName (some 7)).1 wName 3).1 wName =
      some { name := wName, app_id := none, exited := false, pending := [3] } :=
  xdp_c3 (fun _ => none) wTable1 wName wInfo1 (some 7) 3 (by decide) (by decide)

/-- C4: on a `1:name=systemd:` line whose unit basename is
`xdg-app-<token>.scope`, a token with a dash resolves to its part before
the first dash, a token without a dash leaves the app id as it was, and a
basename not matching the scope grammar resolves to the host identity "". -/
theorem xdp_c4 :
    (∀ (unit tok : Str) (a : Option Str),
      g_path_get_basename unit = xdgAppPre ++ tok ++ scopeSuf →
      (('-' ∈ tok →
        processLine a (systemdLinePre ++ unit) =
          some (tok.takeWhile (fun c => c != '-'))) ∧
       ('-' ∉ tok → processLine a (systemdLinePre ++ unit) = a))) ∧
    (∀ (unit : Str) (a : Option Str),
      ¬(xdgAppPre.isPrefixOf (g_path_get_basename unit) = true ∧
        scopeSuf.isSuffixOf (g_path_get_basename unit) = true) →
      processLine a (systemdLinePre ++ unit) = some []) := by
  constructor
  · intro unit tok a hb
    have hpre : systemdLinePre.isPrefixOf (systemdLinePre ++ unit) = true :=
      isPrefixOf_append_self _ _
    have hdrop : (systemdLinePre ++ unit).drop systemdLinePre.length = unit :=
      List.drop_left _ _
    have hp2 : xdgAppPre <+: xdgAppPre ++ (tok ++ scopeSuf) := List.prefix_append _ _
    have hs2 : scopeSuf <:+ xdgAppPre ++ (tok ++ scopeSuf) := by
      rw [← List.append_assoc]
      exact List.suffix_append _ _
    have hrest : (xdgAppPre ++ tok ++ scopeSuf).drop xdgAppPre.length = tok ++ scopeSuf := by
      rw [List.append_assoc]
      exact List.drop_left _ _
    constructor
    · intro hdash
      have htw : (tok ++ scopeSuf).takeWhile (fun c => c != '-') =
          tok.takeWhile (fun c => c != '-') :=
        takeWhile_append_stop _ hdash (by simp)
      have hmem : '-' ∈ tok ++ scopeSuf := List.mem_append_left _ hdash
      simp [processLine, hpre, hdrop, hb, hp2, hs2, hrest, hmem, htw]
    · intro hdash
      have hmem : '-' ∉ tok ++ scopeSuf := by
        intro hc
        rcases List.mem_append.mp hc with h | h
        · exact hdash h
        · revert h
          decide
      simp [processLine, hpre, hdrop, hb, hp2, hs2, hrest, hmem]
  · intro unit a hng
    have hpre : systemdLinePre.isPrefixOf (systemdLinePre ++ unit) = true :=
      isPrefixOf_append_self _ _
    have hdrop : (systemdLinePre ++ unit).drop systemdLinePre.length = unit :=
      List.drop_left _ _
    have hand : (xdgAppPre.isPrefixOf (g_path_get_basename unit) &&
        scopeSuf.isSuffixOf (g_path_get_basename unit)) = false := by
      cases hx : xdgAppPre.isPrefixOf (g_path_get_basename unit) <;>
        cases hy : scopeSuf.isSuffixOf (g_path_get_basename unit) <;> simp_all
    simp [processLine, hpre, hdrop, hand]

/-- C4 witness: the three grammar cases at the spec's synthetic lines. -/
theorem xdp_c4_witness :
    processLine none (systemdLinePre ++ "/user.slice/xdg-app-myapp-12345.scope".toList) =
      some ("myapp-12345".toList.takeWhile (fun c => c != '-')) ∧
    processLine none (systemdLinePre ++ "/xdg-app-noinstancemarker.scope".toList) = none ∧
    processLine none (systemdLinePre ++ "/system.slice/other.service".toList) = some [] :=
  ⟨((xdp_c4.1 "/user.slice/xdg-app-myapp-12345.scope".toList "myapp-12345".toList none
      (by decide)).1 (by decide)),
   ((xdp_c4.1 "/xdg-app-noinstancemarker.scope".toList "noinstancemarker".toList none
      (by decide)).2 (by decide)),
   (xdp_c4.2 "/system.slice/other.service".toList none (by decide))⟩

/-- C5 counterexample: two waiters enqueued in the order 1 then 2 are
completed in the order 2 then 1, not the enqueue order the claim states. -/
theorem xdp_c5_counterexample :
    (got_credentials_cb (fun _ => none) wTable2 wName (some 7)).2 =
      [CacheEvent.completed 2 none, CacheEvent.completed 1 none] ∧
    (got_credentials_cb (fun _ => none) wTable2 wName (some 7)).2 ≠
      [CacheEvent.completed 1 none, CacheEvent.completed 2 none] := by
  decide

/-- C5 amended: enqueueing prepends to the pending list and the completion
handler completes the list head first, so waiters are completed in the
reverse of their enqueue order, all with the same outcome. -/
theorem xdp_c5 (st : AppIdTable) (sender : Str) (info : AppIdInfo) (t : Nat)
    (hst : st sender = some info) (hApp : info.app_id = none) :
    (xdp_invocation_lookup_app_id st sender t).1 sender =
      some { info with pending := t :: info.pending } ∧
    ∀ (proc : Nat → Option Str) (reply : Option Nat),
      (got_credentials_cb proc (xdp_invocation_lookup_app_id st sender t).1 sender reply).2 =
        (t :: info.pending).map fun u =>
          CacheEvent.completed u (newAppId proc { info with pending := t :: info.pending } reply) := by
  constructor
  · simp [xdp_invocation_lookup_app_id, hst, hApp, tableInsert]
  · intro proc reply
    simp [xdp_invocation_lookup_app_id, hst, hApp, got_credentials_cb, tableInsert]

/-- C5 witness: the latest waiter is completed first. -/
theorem xdp_c5_witness :
    (xdp_invocation_lookup_app_id wTable1 wName 2).1 wName =
      some { wInfo1 with pending := 2 :: wInfo1.pending } ∧
    (got_credentials_cb (fun _ => none)
        (xdp_invocation_lookup_app_id wTable1 wName 2).1 wName (some 7)).2 =
      (2 :: wInfo1.pending).map fun u =>
        CacheEvent.completed u
          (newAppId (fun _ => none) { wInfo1 with pending := 2 :: wInfo1.pending } (some 7)) := by
  obtain ⟨h1, h2⟩ := xdp_c5 wTable1 wName wInfo1 2 (by decide) (by decide)
  exact ⟨h1, h2 (fun _ => none) (some 7)⟩

/-- C6: a disconnect notification for an entry with no pending waiters
removes it at once and a later `resolve` dispatches a fresh query; a
notification for an unknown name leaves the table untouched. -/
theorem xdp_c6 :
    (∀ (st : AppIdTable) (name : Str) (info : AppIdInfo) (t : Nat),
      name.head? = some ':' → st name = some info → info.pending = [] →
      (name_owner_changed st name name []) name = none ∧
      (xdp_invocation_lookup_app_id (name_owner_changed st name name []) name t).2 =
        [CacheEvent.queryDispatched name] ∧
      (xdp_invocation_lookup_app_id (name_owner_changed st name name []) name t).1 name =
        some { name := name, app_id := none, exited := false, pending := [t] }) ∧
    (∀ (st : AppIdTable) (name oldOwner newOwner : Str),
      st name = none → name_owner_changed st name oldOwner newOwner = st) := by
  constructor
  · intro st name info t hcolon hst hp
    have hrm : (name_owner_changed st name name []) name = none := by
      simp [name_owner_changed, hcolon, hst, hp, tableRemove]
    refine ⟨hrm, ?_, ?_⟩
    · simp [xdp_invocation_lookup_app_id, hrm]
    · simp [xdp_invocation_lookup_app_id, hrm, tableInsert]
  · intro st name oldOwner newOwner hst
    unfold name_owner_changed
    split
    · rw [hst]
    · rfl

/-- C6 witness: dropping a resolved idle entry on disconnect forces the
next lookup to query again; a disconnect for a name not in the table is a
no-op. -/
theorem xdp_c6_witness :
    ((name_owner_changed wTableRes wName wName []) wName = none ∧
     (xdp_invocation_lookup_app_id (name_owner_changed wTableRes wName wName []) wName 5).2 =
       [CacheEvent.queryDispatched wName] ∧
     (xdp_invocation_lookup_app_id (name_owner_changed wTableRes wName wName []) wName 5).1 wName =
       some { name := wName, app_id := none, exited := false, pending := [5] }) ∧
    name_owner_changed emptyTable wName wName [] = emptyTable :=
  ⟨xdp_c6.1 wTableRes wName wInfoRes 5 (by decide) (by decide) (by decide),
   xdp_c6.2 emptyTable wName wName [] rfl⟩

/-- C7: decoding the encoding of any combination of the four permission
flags is the identity, and an unrecognized token contributes no bits. -/
theorem xdp_c7 :
    (∀ f : Nat, f < 16 → xdp_parse_permissions (xdg_unparse_permissions f) = f) ∧
    (∀ (t : String) (ts : List String),
      t ≠ "read" → t ≠ "write" → t ≠ "grant-permissions" → t ≠ "delete" →
      xdp_parse_permissions (t :: ts) = xdp_parse_permissions ts) := by
  constructor
  · decide
  · intro t ts h1 h2 h3 h4
    simp [xdp_parse_permissions, h1, h2, h3, h4]

/-- C7 witness: a concrete round trip and a concrete unknown token. -/
theorem xdp_c7_witness :
    xdp_parse_permissions (xdg_unparse_permissions 5) = 5 ∧
    xdp_parse_permissions ["execute", "read"] = xdp_parse_permissions ["read"] :=
  ⟨xdp_c7.1 5 (by decide),
   xdp_c7.2 "execute" ["read"] (by decide) (by decide) (by decide) (by decide)⟩

/-- C8: the empty requester id yields the full permission set for every
record, and the subset test is exactly a mask comparison on the effective
permissions. -/
theorem xdp_c8 :
    (∀ entry : XdgAppDbEntry, xdp_get_permissions entry "" = XDP_PERMISSION_FLAGS_ALL) ∧
    (∀ (entry : XdgAppDbEntry) (app_id : String) (perms : Nat),
      xdp_has_permissions entry app_id perms = true ↔
        xdp_get_permissions entry app_id &&& perms = perms) := by
  constructor
  · intro entry
    simp [xdp_get_permissions]
  · intro entry app_id perms
    simp [xdp_has_permissions]

/-- C9: the line scan visits every line; the final app id is the yield of
the last line that yields one (the first success over the reversed line
list), and lines that yield nothing — non-systemd lines and sandbox-scope
basenames without an inner dash, whose per-line result `processLine none`
is `none` — leave an earlier app id unchanged. -/
theorem xdp_c9 (a : Option Str) (lines : List Str) :
    scanLines a lines = (lines.reverse.findSome? (processLine none)).elim a some := by
  induction lines generalizing a with
  | nil => rfl
  | cons l ls ih =>
    show scanLines (processLine a l) ls = _
    rw [ih, List.reverse_cons, findSome_append]
    cases hf : ls.reverse.findSome? (processLine none)
    · simp only [Option.elim]
      cases hp : processLine none l
      · simp [List.findSome?, hp, processLine_elim a l]
      · simp [List.findSome?, hp, processLine_elim a l]
    · rfl

/-- C10: converting a 32-bit document id to its name and back is the
identity. -/
theorem xdp_c10 (d : Nat) (h : d < 2 ^ 32) :
    xdp_id_from_name (xdp_name_from_id d) = d := by
  unfold xdp_id_from_name xdp_name_from_id g_ascii_strtoull_hex
  rw [Nat.mod_eq_of_lt h, strtoullHexAux_toHexChars d 0]
  simp only [Nat.zero_mul, Nat.zero_add]
  rw [min_eq_left (by omega)]
  exact Nat.mod_eq_of_lt h

/-- C10 witness: the round trip at a concrete 32-bit id. -/
theorem xdp_c10_witness :
    3735928559 < 2 ^ 32 ∧ xdp_id_from_name (xdp_name_from_id 3735928559) = 3735928559 :=
  ⟨by decide, xdp_c10 3735928559 (by decide)⟩
